import Mathlib

/-!
Verification development for the polynote frontend's edit-synchronization and
local-backup subsystem (`client_backup.ts`: the `ClientBackup`/`Backups`/`Backup`
store and the `NotebookMessageDispatcher`).

The embedding is shallow: TypeScript classes become Lean structures, the
dispatcher's `match(action).when(...)` chain becomes one Lean `match`, the
`idb-keyval` store becomes an association list from paths to stored records,
and JavaScript numbers used as cell ids become `Int` (the code compares them
with `-1` and computes negative indices).  JavaScript reference identity
(`===` on arrays/objects) is modelled by tagging each allocated array/object
with an allocation id (`rid`); every allocation site draws fresh ids from an
explicit counter, mirroring the fact that a structured clone or a fresh
array literal is never `===` to a previously existing object.
-/

set_option autoImplicit false

/-- Modelled from the spec: opaque payload of a cell comment (`CellComment`
from `data.ts`, not in the sources); the dispatcher and backup store only
carry these values around. -/
structure CellComment where
  tag : Nat
deriving DecidableEq, Repr

/-- Modelled from the spec: opaque cell metadata payload (`CellMetadata` from
`data.ts`, not in the sources). -/
structure CellMetadata where
  tag : Nat
deriving DecidableEq, Repr

/-- Modelled from the spec: opaque cell output payload (`Output` from
`result.ts`, not in the sources). -/
structure Output where
  tag : Nat
deriving DecidableEq, Repr

/-- Modelled from the spec: a position range carried by selection and comment
actions (`PosRange` from `result.ts`, not in the sources). -/
structure PosRange where
  start : Nat
  stop : Nat
deriving DecidableEq, Repr

/-- Modelled from the spec: opaque atomic content edit (`ContentEdit` from
`content_edit.ts`, not in the sources). -/
structure ContentEdit where
  tag : Nat
deriving DecidableEq, Repr

/-- Modelled from the spec: opaque notebook-wide configuration payload
(`NotebookConfig` from `data.ts`, not in the sources). -/
structure NotebookConfig where
  tag : Nat
deriving DecidableEq, Repr

/-- Modelled from the spec: opaque incremental notebook update payload
(`NotebookUpdate` from `messages.ts`, not in the sources); the unit stored by
`ClientBackup.updateNb`. -/
structure NotebookUpdate where
  tag : Nat
deriving DecidableEq, Repr

/-- `NotebookCell` as constructed in the sources:
`new NotebookCell(id, language, content, results, metadata, comments)`.
Used both by the dispatcher (the cell embedded in an `InsertCell` message) and
by the backup store (`addNb` re-creates each cell with empty `results`). -/
structure NotebookCell where
  id : Int
  language : String
  content : String
  results : List Output
  metadata : CellMetadata
  comments : List CellComment
deriving DecidableEq, Repr

/-- A cell as it lives in the dispatcher's `NotebookState.cells`: the
`NotebookCell` fields plus the transient per-cell UI state the dispatcher
reads and writes (`queued`, `results`, `error`, `selected`,
`currentSelection`, `pendingEdits`). -/
structure CellState where
  id : Int
  language : String
  content : String
  metadata : CellMetadata
  comments : List CellComment
  queued : Bool
  results : List Output
  error : Bool
  selected : Bool
  currentSelection : Option PosRange
  pendingEdits : List ContentEdit
deriving DecidableEq, Repr

/-- The protocol messages the dispatcher sends (`messages.ts` constructors as
used in `NotebookMessageDispatcher.dispatch`).  Content-mutation messages
carry `(globalVersion, localVersion)` exactly where the source passes them. -/
inductive Message where
  | createComment (globalVersion localVersion : Nat) (cellId : Int) (comment : CellComment)
  | updateComment (globalVersion localVersion : Nat) (cellId : Int) (commentId : String)
      (range : PosRange) (content : String)
  | deleteComment (globalVersion localVersion : Nat) (cellId : Int) (commentId : String)
  | currentSelection (cellId : Int) (range : PosRange)
  | setCellOutput (globalVersion localVersion : Nat) (cellId : Int) (output : Output)
  | setCellLanguage (globalVersion localVersion : Nat) (cellId : Int) (language : String)
  | insertCell (globalVersion localVersion : Nat) (cell : NotebookCell) (prev : Int)
  | updateCell (globalVersion localVersion : Nat) (cellId : Int) (edits : List ContentEdit)
      (metadata : Option CellMetadata)
  | deleteCell (globalVersion localVersion : Nat) (cellId : Int)
  | updateConfig (globalVersion localVersion : Nat) (config : NotebookConfig)
  | completionsAt (cellId offset : Int) (previous : List Nat)
  | parametersAt (cellId offset : Int)
  | notebookVersion (path : String) (version : Int)
  | runCell (cellIds : List Int)
  | cancelTasks (path : String)
  | clearOutput
deriving DecidableEq, Repr

/-- Modelled from the spec: the Edit Buffer (`EditBuffer` from
`notebook_state.ts`, not in the sources) is "an ordered mapping from
localVersion → message, append-only from the client's perspective";
`push(version, message)` appends the keyed entry. -/
abbrev EditBuffer := List (Nat × Message)

/-- Modelled from the spec: appending to the Edit Buffer at a given key. -/
def EditBuffer.push (buf : EditBuffer) (version : Nat) (msg : Message) : EditBuffer :=
  buf ++ [(version, msg)]

/-- The slice of `NotebookState` (from `notebook_state.ts`) that
`NotebookMessageDispatcher.dispatch` reads and writes.  Pending
completion/signature callbacks are identified by an opaque handler id; calling
`reject()` on one is recorded as an event. -/
structure NotebookState where
  path : String
  globalVersion : Nat
  localVersion : Nat
  cells : List CellState
  config : NotebookConfig
  editBuffer : EditBuffer
  activeCell : Option CellState
  activeCompletion : Option Nat
  activeSignature : Option Nat
deriving DecidableEq, Repr

/-- Relative direction for `SetSelectedCell`. -/
inductive SelRelative where
  | above
  | below
deriving DecidableEq, Repr

/-- The notebook-scoped `UIAction` variants handled by
`NotebookMessageDispatcher.dispatch`.  `Reconnect` and `KernelCommand` only
talk to the socket collaborator and are not modelled; completion/signature
callbacks are carried as opaque handler ids. -/
inductive UIAction where
  | createComment (cellId : Int) (comment : CellComment)
  | updateComment (cellId : Int) (commentId : String) (range : PosRange) (content : String)
  | deleteComment (cellId : Int) (commentId : String)
  | setCurrentSelection (cellId : Int) (range : PosRange)
  | setCellOutput (cellId : Int) (output : Output)
  | setCellLanguage (cellId : Int) (language : String)
  | createCell (language : String) (content : String) (metadata : CellMetadata) (prev : Int)
  | updateCell (cellId : Int) (edits : List ContentEdit) (newContent : Option String)
      (metadata : Option CellMetadata)
  | deleteCell (cellId : Int)
  | updateConfig (config : NotebookConfig)
  | requestCompletions (cellId offset : Int) (handler : Nat)
  | requestSignature (cellId offset : Int) (handler : Nat)
  | requestNotebookVersion (version : Int)
  | requestCellRun (cellIds : List Int)
  | requestCancelTasks
  | requestClearOutput
  | setSelectedCell (selected : Option Int) (relative : Option SelRelative)
  | currentSelection (cellId : Int) (range : PosRange)
  | clearCellEdits (cellId : Int)
  | downloadNotebook
deriving DecidableEq, Repr

/-- Observable side effects of one dispatch: messages handed to
`socket.send`, and `reject()` calls on superseded completion/signature
callbacks, in the order they happen in the source. -/
inductive Evt where
  | sent (msg : Message)
  | rejectedCompletion (handler : Nat)
  | rejectedSignature (handler : Nat)
deriving DecidableEq, Repr

/-- JavaScript `Array.prototype.findIndex` over the cell list: index of the
first cell whose `id === target` (`target` may be `undefined`), else `-1`. -/
def findIndexIdAux (cells : List CellState) (target : Option Int) (i : Int) : Int :=
  match cells with
  | [] => -1
  | c :: t => if some c.id = target then i else findIndexIdAux t target (i + 1)

/-- `cells.findIndex(cell => cell.id === target)`. -/
def findIndexId (cells : List CellState) (target : Option Int) : Int :=
  findIndexIdAux cells target 0

/-- JavaScript indexing `cells[i]`: `undefined` for negative or out-of-range
indices. -/
def jsGet (cells : List CellState) (i : Int) : Option CellState :=
  if 0 ≤ i then cells.get? i.toNat else none

/-- The neighbor lookup in the `SetSelectedCell` branch:
`state.cells[anchorIdx - 1]?.id` (for `"above"`) or
`state.cells[anchorIdx + 1]?.id` (for `"below"`), with
`anchorIdx = state.cells.findIndex(cell => cell.id === id)`. -/
def neighborId (cells : List CellState) (selected : Option Int) (rel : SelRelative) : Option Int :=
  match rel with
  | .above => (jsGet cells (findIndexId cells selected - 1)).map (·.id)
  | .below => (jsGet cells (findIndexId cells selected + 1)).map (·.id)

/-- The id the `SetSelectedCell` branch resolves to:
the neighbor when `relative` is given, then
`id = id ?? (selected === -1 ? 0 : selected)`. -/
def resolveSelection (cells : List CellState) (selected : Option Int)
    (rel : Option SelRelative) : Option Int :=
  let id : Option Int :=
    match rel with
    | some r => neighborId cells selected r
    | none => selected
  match id with
  | some v => some v
  | none => if selected = some (-1) then some 0 else selected

/-- `NotebookMessageDispatcher.dispatch`, branch by branch in source order.
Returns the state produced by the branch's `updateState` (or the unchanged
state for send-only branches) together with the ordered side effects. -/
def dispatch (action : UIAction) (state : NotebookState) : NotebookState × List Evt :=
  match action with
  | .createComment cellId comment =>
      (state, [.sent (.createComment state.globalVersion state.localVersion cellId comment)])
  | .updateComment cellId commentId range content =>
      (state,
        [.sent (.updateComment state.globalVersion state.localVersion cellId commentId range content)])
  | .deleteComment cellId commentId =>
      (state, [.sent (.deleteComment state.globalVersion state.localVersion cellId commentId)])
  | .setCurrentSelection cellId range =>
      (state, [.sent (.currentSelection cellId range)])
  | .setCellOutput cellId output =>
      (state, [.sent (.setCellOutput state.globalVersion state.localVersion cellId output)])
  | .setCellLanguage cellId language =>
      ({ state with
          cells := state.cells.map fun cell =>
            if cell.id = cellId then { cell with language := language } else cell },
        [.sent (.setCellLanguage state.globalVersion state.localVersion cellId language)])
  | .createCell language content metadata prev =>
      -- let localVersion = state.localVersion + 1; the returned state spreads
      -- `...state` and only overrides `editBuffer`, keyed by the OLD
      -- `state.localVersion`; `cells` and `localVersion` are not written.
      let localVersion := state.localVersion + 1
      let maxId := state.cells.foldl (fun acc cell => if acc > cell.id then acc else cell.id) (-1)
      let cell : NotebookCell := ⟨maxId + 1, language, content, [], metadata, []⟩
      let update : Message := .insertCell state.globalVersion localVersion cell prev
      ({ state with editBuffer := state.editBuffer.push state.localVersion update },
        [.sent update])
  | .updateCell cellId edits newContent metadata =>
      let localVersion := state.localVersion + 1
      let update : Message := .updateCell state.globalVersion localVersion cellId edits metadata
      ({ state with
          editBuffer := state.editBuffer.push state.localVersion update,
          cells := state.cells.map fun cell =>
            if cell.id = cellId then
              { cell with
                  content := newContent.getD cell.content,
                  metadata := metadata.getD cell.metadata }
            else cell },
        [.sent update])
  | .deleteCell cellId =>
      -- state = {...state}; ++state.localVersion both in the message and in
      -- the buffer key, and the incremented value is stored back.
      let localVersion := state.localVersion + 1
      let update : Message := .deleteCell state.globalVersion localVersion cellId
      ({ state with
          localVersion := localVersion,
          editBuffer := state.editBuffer.push localVersion update },
        [.sent update])
  | .updateConfig conf =>
      let localVersion := state.localVersion + 1
      let update : Message := .updateConfig state.globalVersion localVersion conf
      ({ state with
          localVersion := localVersion,
          editBuffer := state.editBuffer.push localVersion update },
        [.sent update])
  | .requestCompletions cellId offset handler =>
      let rejections : List Evt :=
        match state.activeCompletion with
        | some p => [.rejectedCompletion p]
        | none => []
      ({ state with activeCompletion := some handler },
        .sent (.completionsAt cellId offset []) :: rejections)
  | .requestSignature cellId offset handler =>
      let rejections : List Evt :=
        match state.activeSignature with
        | some p => [.rejectedSignature p]
        | none => []
      ({ state with activeSignature := some handler },
        .sent (.parametersAt cellId offset) :: rejections)
  | .requestNotebookVersion version =>
      (state, [.sent (.notebookVersion state.path version)])
  | .requestCellRun cellIds =>
      let ids := if cellIds.isEmpty then state.cells.map (·.id) else cellIds
      ({ state with
          cells := state.cells.map fun cell =>
            if ids.contains cell.id then
              { cell with queued := true, results := [], error := false }
            else cell },
        [.sent (.runCell ids)])
  | .requestCancelTasks =>
      (state, [.sent (.cancelTasks state.path)])
  | .requestClearOutput =>
      (state, [.sent .clearOutput])
  | .setSelectedCell selected relative =>
      let id := resolveSelection state.cells selected relative
      ({ state with
          activeCell := state.cells.find? fun cell => decide (some cell.id = id),
          cells := state.cells.map fun cell =>
            { cell with selected := decide (some cell.id = id) } },
        [])
  | .currentSelection cellId range =>
      ({ state with
          cells := state.cells.map fun cell =>
            { cell with currentSelection := if cell.id = cellId then some range else none } },
        [.sent (.currentSelection cellId range)])
  | .clearCellEdits cellId =>
      ({ state with
          cells := state.cells.map fun cell =>
            if cell.id = cellId then { cell with pendingEdits := [] } else cell },
        [])
  | .downloadNotebook =>
      (state, [])

/-- Folding a sequence of dispatches over a state (the state component only). -/
def dispatchSeq (actions : List UIAction) (state : NotebookState) : NotebookState :=
  actions.foldl (fun st a => (dispatch a st).1) state

/-! ## The backup store (`ClientBackup`, `Backups`, `Backup`)

JavaScript arrays and objects compared with `===` are modelled as values
tagged with an allocation id `rid`; `===` is `rid` equality.  Every
allocation site (a fresh array literal, `cells.map(...)`, or the structured
clone that `idb-keyval`'s `get` returns) draws previously unused ids from an
explicit counter threaded through the functions, so two distinct allocations
never share a `rid`. -/

/-- A JavaScript array reference: allocation id plus contents. -/
structure ArrRef (α : Type) where
  rid : Nat
  val : List α
deriving DecidableEq, Repr

/-- A JavaScript object reference to a `NotebookConfig`. -/
structure ConfigRef where
  rid : Nat
  val : NotebookConfig
deriving DecidableEq, Repr

/-- One entry of a backup's update log: `{ts, upd}`. -/
structure UpdEntry where
  ts : Nat
  upd : NotebookUpdate
deriving DecidableEq, Repr

/-- The `Backup` class (also its serialized shape `IBackup`, whose fields are
identical; `Backup.fromI` repackages the same field references). -/
structure Backup where
  path : String
  cells : ArrRef NotebookCell
  config : Option ConfigRef
  ts : Nat
  updates : ArrRef UpdEntry
deriving DecidableEq, Repr

/-- `===` on two optional config references: `undefined === undefined` is
true, two objects are `===` iff they are the same allocation. -/
def cfgRefEq : Option ConfigRef → Option ConfigRef → Bool
  | none, none => true
  | some a, some b => a.rid == b.rid
  | _, _ => false

/-- `Backup.equals`: `path === path && cells === cells && config === config
&& updates === updates` — reference equality on the array/object fields,
and `ts` is not compared. -/
def Backup.equals (b1 b2 : Backup) : Bool :=
  b1.path == b2.path && b1.cells.rid == b2.cells.rid
    && cfgRefEq b1.config b2.config && b1.updates.rid == b2.updates.rid

/-- The `backups: Record<number, Backup[]>` field: an association list from
day timestamps to that day's list of backups.  A JavaScript object has at
most one property per key; maps built by the operations below keep keys
without duplicates. -/
abbrev BMap := List (Nat × List Backup)

/-- Property lookup `backups[k]` (`undefined` when the key is absent). -/
def bLookup : BMap → Nat → Option (List Backup)
  | [], _ => none
  | (k', v) :: t, k => if k' = k then some v else bLookup t k

/-- Property write `backups[k] = v`: overwrite in place if the key exists,
otherwise add the key. -/
def bInsert : BMap → Nat → List Backup → BMap
  | [], k, v => [(k, v)]
  | (k', v') :: t, k, v => if k' = k then (k, v) :: t else (k', v') :: bInsert t k v

/-- `delete backups[k]`. -/
def bDelete : BMap → Nat → BMap
  | [], _ => []
  | (k', v) :: t, k => if k' = k then bDelete t k else (k', v) :: bDelete t k

/-- `Math.min(...keys)` over a key list (`none` on the empty list, where the
JavaScript value would be `Infinity`). -/
def listMin : List Nat → Option Nat
  | [] => none
  | x :: t =>
    match listMin t with
    | none => some x
    | some y => some (min x y)

/-- `Math.max(...keys)` over a key list (`none` on the empty list, where the
JavaScript value would be `-Infinity`, under which the subsequent property
lookup yields `undefined`). -/
def listMax : List Nat → Option Nat
  | [] => none
  | x :: t =>
    match listMax t with
    | none => some x
    | some y => some (max x y)

/-- `BACKUPS_PER_NOTEBOOK` from the source. -/
def BACKUPS_PER_NOTEBOOK : Nat := 100

/-- `BACKUPS_PER_DAY` from the source. -/
def BACKUPS_PER_DAY : Nat := 10

/-- The first half of `Backups.addBackup`: when
`Object.values(this.backups).length > BACKUPS_PER_NOTEBOOK`, delete the
bucket at `Math.min` of the keys. -/
def evictOldest (m : BMap) : BMap :=
  match listMin (m.map Prod.fst) with
  | some k => bDelete m k
  | none => m

/-- `Backups.addBackup(backup)`.  `today` stands for `todayTs()` (midnight of
the current day); the method first applies the total-bucket eviction, then
creates/appends/slides today's bucket. -/
def addBackup (today : Nat) (backup : Backup) (m : BMap) : BMap :=
  let m1 := if BACKUPS_PER_NOTEBOOK < m.length then evictOldest m else m
  match bLookup m1 today with
  | none => bInsert m1 today [backup]
  | some todayBackups =>
    if todayBackups.length < BACKUPS_PER_DAY then
      bInsert m1 today (todayBackups ++ [backup])
    else
      -- shift() removes index 0, then push appends
      bInsert m1 today (todayBackups.drop 1 ++ [backup])

/-- `Backups.latestBackup()`: today's bucket's last entry if today's bucket
exists, else the last entry of the bucket at the numerically largest key. -/
def latestBackup (today : Nat) (m : BMap) : Option Backup :=
  match bLookup m today with
  | some todayBackups => todayBackups.getLast?
  | none =>
    match listMax (m.map Prod.fst) with
    | some newestDay => (bLookup m newestDay).bind List.getLast?
    | none => none

/-- The `Backups` class (also its serialized shape `IBackups`;
`Backups.fromI`/`toI` convert between the two identical-field shapes). -/
structure Backups where
  path : String
  backups : BMap
deriving DecidableEq, Repr

/-- Structured clone of one `Backup` (what `idb-keyval`'s `get` returns for a
stored record): same contents, fresh allocation ids for the `cells`,
`config` and `updates` references.  Returns the clone and the next unused
allocation id. -/
def cloneBackup (ctr : Nat) (b : Backup) : Backup × Nat :=
  ({ b with
      cells := ⟨ctr, b.cells.val⟩,
      config := b.config.map fun c => ⟨ctr + 1, c.val⟩,
      updates := ⟨ctr + 2, b.updates.val⟩ },
    ctr + 3)

/-- Structured clone of one day bucket. -/
def cloneBucket (ctr : Nat) : List Backup → List Backup × Nat
  | [] => ([], ctr)
  | b :: t =>
    let (b', ctr') := cloneBackup ctr b
    let (t', ctr'') := cloneBucket ctr' t
    (b' :: t', ctr'')

/-- Structured clone of the whole day-bucket map. -/
def cloneBMap (ctr : Nat) : BMap → BMap × Nat
  | [] => ([], ctr)
  | (k, l) :: t =>
    let (l', ctr') := cloneBucket ctr l
    let (t', ctr'') := cloneBMap ctr' t
    ((k, l') :: t', ctr'')

/-- The `idb-keyval` store: keys are notebook paths, values the serialized
`Backups` record. -/
abbrev Store := List (String × Backups)

/-- `get(path)` on the stored record (before cloning). -/
def storeLookup : Store → String → Option Backups
  | [], _ => none
  | (p, b) :: t, path => if p = path then some b else storeLookup t path

/-- `set(path, value)`. -/
def storeSet : Store → String → Backups → Store
  | [], path, v => [(path, v)]
  | (p, b) :: t, path, v => if p = path then (path, v) :: t else (p, b) :: storeSet t path v

/-- The cleared cells built by `ClientBackup.addNb`:
`cells.map(cell => new NotebookCell(cell.id, cell.language, cell.content,
[], cell.metadata, cell.comments))`. -/
def clearCells (cells : List NotebookCell) : List NotebookCell :=
  cells.map fun cell => { cell with results := [] }

/-- The fresh `Backup` built by `addNb`: the cleared-cells array is a fresh
allocation (`rid = ctr`), the empty update log another (`rid = ctr + 1`). -/
def freshBackup (path : String) (cells : List NotebookCell) (config : Option ConfigRef)
    (now ctr : Nat) : Backup :=
  ⟨path, ⟨ctr, clearCells cells⟩, config, now, ⟨ctr + 1, []⟩⟩

/-- The `Backups` value `addNb` works on:
`backupsObj ? Backups.fromI(backupsObj) : new Backups(path)`, where
`backupsObj` is the structured clone `get(path)` produced (its allocations
start at `ctr + 2`, after the two allocations of the fresh backup). -/
def baseBackups (store : Store) (path : String) (ctr : Nat) : Backups :=
  match storeLookup store path with
  | some ib => ⟨ib.path, (cloneBMap (ctr + 2) ib.backups).1⟩
  | none => ⟨path, []⟩

/-- `ClientBackup.addNb(path, cells, config)`.  `now` is `Date.now()`,
`today` is `todayTs()`, `ctr` the first unused allocation id.  Returns the
store after the call, the `Backups` value the promise resolves with, and
whether the identical-latest-backup no-op branch was taken. -/
def addNb (store : Store) (path : String) (cells : List NotebookCell)
    (config : Option ConfigRef) (now today ctr : Nat) : Store × Backups × Bool :=
  let backup := freshBackup path cells config now ctr
  let backups := baseBackups store path ctr
  let noop := ((latestBackup today backups.backups).map fun l => l.equals backup).getD false
  if noop then
    (store, backups, true)
  else
    let b2 : Backups := ⟨backups.path, addBackup today backup backups.backups⟩
    (storeSet store path b2, b2, false)

/-- `ClientBackup.getBackups(path)`: resolves with the stored record's clone,
rejects with an error when `get` yields `undefined`. -/
def getBackups (store : Store) (path : String) (ctr : Nat) : Except String Backups :=
  match storeLookup store path with
  | some ib => .ok ⟨ib.path, (cloneBMap ctr ib.backups).1⟩
  | none => .error ("No Backup found for " ++ path)

/-- `latest.updates.push({ts, upd})` applied to the last backup of a bucket:
the update log array is mutated in place (same allocation id, one more
entry). -/
def pushUpdLast (now : Nat) (upd : NotebookUpdate) (l : List Backup) : List Backup :=
  match l.getLast? with
  | some b =>
    l.dropLast ++ [{ b with updates := ⟨b.updates.rid, b.updates.val ++ [⟨now, upd⟩]⟩ }]
  | none => l

/-- `Backups.addUpdate(upd)`: locate `latestBackup()` and push the update
onto it; `none` when there is no latest backup (the method throws). -/
def addUpdate (today now : Nat) (upd : NotebookUpdate) (m : BMap) : Option BMap :=
  match bLookup m today with
  | some todayBackups =>
    match todayBackups.getLast? with
    | some _ => some (bInsert m today (pushUpdLast now upd todayBackups))
    | none => none
  | none =>
    match listMax (m.map Prod.fst) with
    | none => none
    | some newestDay =>
      match bLookup m newestDay with
      | none => none
      | some newestBackups =>
        match newestBackups.getLast? with
        | some _ => some (bInsert m newestDay (pushUpdLast now upd newestBackups))
        | none => none

/-- `ClientBackup.updateNb(path, upd)`: reject when `get(path)` is
`undefined`; otherwise clone, `addUpdate` (whose throw propagates as a
rejection), store the result and resolve with it. -/
def updateNb (store : Store) (path : String) (upd : NotebookUpdate)
    (now today ctr : Nat) : Except String (Store × Backups) :=
  match storeLookup store path with
  | none => .error ("Unable to find a current backup for notebook at " ++ path)
  | some ib =>
    let bks : Backups := ⟨ib.path, (cloneBMap ctr ib.backups).1⟩
    match addUpdate today now upd bks.backups with
    | none => .error ("No backups found for " ++ bks.path ++ "!")
    | some m2 => .ok (storeSet store path ⟨bks.path, m2⟩, ⟨bks.path, m2⟩)

/-- Whether an `Except` result is a rejection. -/
def isErr {α : Type} : Except String α → Bool
  | .error _ => true
  | .ok _ => false

/-- Total number of backups stored for a path (what the per-path count
reported by `allBackups()` comes to). -/
def pathBackupCount (store : Store) (path : String) : Nat :=
  match storeLookup store path with
  | some b => (b.backups.map fun e => e.2.length).sum
  | none => 0

/-- The total-limit phase of `addBackup` as a standalone function (used only
to state lemmas about `addBackup`). -/
def preEvict (m : BMap) : BMap :=
  if BACKUPS_PER_NOTEBOOK < m.length then evictOldest m else m

/-- The today-bucket produced by `addBackup` from the bucket found (or not
found) under today's key (used only to state lemmas about `addBackup`). -/
def newBucket (b : Backup) : Option (List Backup) → List Backup
  | none => [b]
  | some l => if l.length < BACKUPS_PER_DAY then l ++ [b] else l.drop 1 ++ [b]

/-- Decidable well-formedness of one stored `Backups` record: at least one
day bucket and no empty bucket — exactly what makes `latestBackup` defined,
and what `addNb` maintains. -/
def wfBackups (b : Backups) : Bool :=
  !b.backups.isEmpty && b.backups.all fun bucket => !bucket.2.isEmpty

/-- Decidable well-formedness of the whole store. -/
def wfStore (store : Store) : Bool :=
  store.all fun e => wfBackups e.2

/-! ## Concrete sample values used by the evaluation theorems -/

/-- A sample metadata value. -/
def meta0 : CellMetadata := ⟨0⟩

/-- A dispatcher-state cell with a given id and no transient state. -/
def mkCellState (i : Int) : CellState :=
  ⟨i, "scala", "", meta0, [], false, [], false, false, none, []⟩

/-- The spec's end-to-end scenario state: cells `[{id:0},{id:1}]`,
`localVersion = 0`, empty edit buffer. -/
def demoState : NotebookState :=
  ⟨"nb", 0, 0, [mkCellState 0, mkCellState 1], ⟨0⟩, [], none, none, none⟩

/-- `demoState` with a completion and a signature request pending. -/
def demoStateC : NotebookState :=
  { demoState with activeCompletion := some 7, activeSignature := some 8 }

/-- The `InsertCell` message the scenario dispatch sends: `globalVersion 0`,
`localVersion 1`, new cell with id `2`, inserted after cell `0`. -/
def demoInsertMsg : Message :=
  .insertCell 0 1 ⟨2, "scala", "", [], meta0, []⟩ 0

/-- A cleared sample cell (no transient results). -/
def cexCell : NotebookCell := ⟨0, "scala", "x", [], meta0, []⟩

/-- A stored backup whose content is exactly what `addNb` builds from
`[cexCell]`: cleared cells `[cexCell]` (array allocation id 0), no config,
empty update log (allocation id 1). -/
def cexBackup : Backup := ⟨"nb", ⟨0, [cexCell]⟩, none, 50, ⟨1, []⟩⟩

/-- A one-path store whose latest (only) backup is `cexBackup`. -/
def cexStore : Store := [("nb", ⟨"nb", [(5, [cexBackup])]⟩)]

/-- A bucket map with 100 distinct day-buckets (days 0..99). -/
def cexBMap100 : BMap := (List.range 100).map fun i => (i, [cexBackup])

/-- A bucket map with 101 distinct day-buckets (days 0..100). -/
def cexBMap101 : BMap := (List.range 101).map fun i => (i, [cexBackup])

/-- A full day bucket with exactly `BACKUPS_PER_DAY` backups. -/
def cexBucket10 : List Backup := List.replicate 10 cexBackup

/-- A bucket map whose single day-bucket (day 5) is full. -/
def cexBMap10 : BMap := [(5, cexBucket10)]

/-! ## Library lemmas about the day-bucket map and list operations -/

theorem bLookup_cons (a : Nat) (w : List Backup) (t : BMap) (k : Nat) :
    bLookup ((a, w) :: t) k = if a = k then some w else bLookup t k := rfl

theorem bLookup_bInsert (m : BMap) (k : Nat) (v : List Backup) (k' : Nat) :
    bLookup (bInsert m k v) k' = if k' = k then some v else bLookup m k' := by
  induction m with
  | nil =>
    show (if k = k' then some v else none) = if k' = k then some v else none
    by_cases h : k' = k
    · rw [if_pos h, if_pos h.symm]
    · rw [if_neg h, if_neg (fun hh => h hh.symm)]
  | cons e t ih =>
    obtain ⟨a, w⟩ := e
    show bLookup (if a = k then (k, v) :: t else (a, w) :: bInsert t k v) k' = _
    by_cases hak : a = k
    · subst hak
      rw [if_pos rfl, bLookup_cons, bLookup_cons]
      by_cases hk' : a = k'
      · rw [if_pos hk', if_pos hk'.symm]
      · rw [if_neg hk', if_neg (fun hh => hk' hh.symm), if_neg hk']
    · rw [if_neg hak, bLookup_cons, bLookup_cons]
      by_cases hak' : a = k'
      · rw [if_pos hak', if_neg (fun hh : k' = k => hak (hak'.trans hh)), if_pos hak']
      · rw [if_neg hak', ih, if_neg hak']

theorem bDelete_cons (a : Nat) (w : List Backup) (t : BMap) (k : Nat) :
    bDelete ((a, w) :: t) k = if a = k then bDelete t k else (a, w) :: bDelete t k := rfl

theorem bLookup_bDelete (m : BMap) (k k' : Nat) :
    bLookup (bDelete m k) k' = if k' = k then none else bLookup m k' := by
  induction m with
  | nil =>
    show (none : Option (List Backup)) = if k' = k then none else none
    by_cases h : k' = k
    · rw [if_pos h]
    · rw [if_neg h]
  | cons e t ih =>
    obtain ⟨a, w⟩ := e
    rw [bDelete_cons]
    by_cases hak : a = k
    · subst hak
      rw [if_pos rfl, ih, bLookup_cons]
      by_cases hk' : k' = a
      · rw [if_pos hk', if_pos hk']
      · rw [if_neg hk', if_neg hk', if_neg (fun hh : a = k' => hk' hh.symm)]
    · rw [if_neg hak, bLookup_cons, bLookup_cons]
      by_cases hak' : a = k'
      · rw [if_pos hak', if_neg (fun hh : k' = k => hak (hak'.trans hh)), if_pos hak']
      · rw [if_neg hak', ih, if_neg hak']

theorem bLookup_eq_none_iff (m : BMap) (k : Nat) :
    bLookup m k = none ↔ k ∉ m.map Prod.fst := by
  induction m with
  | nil => simp [bLookup]
  | cons e t ih =>
    obtain ⟨a, w⟩ := e
    rw [bLookup_cons, List.map_cons]
    by_cases hak : a = k
    · subst hak
      simp
    · rw [if_neg hak, ih]
      constructor
      · intro h hmem
        rcases List.mem_cons.mp hmem with h' | h'
        · exact hak h'.symm
        · exact h h'
      · intro h hmem
        exact h (List.mem_cons_of_mem _ hmem)

theorem bLookup_mem_exists {m : BMap} {k : Nat} {l : List Backup}
    (h : bLookup m k = some l) : (k, l) ∈ m := by
  induction m with
  | nil => exact absurd h (by simp [bLookup])
  | cons e t ih =>
    obtain ⟨a, w⟩ := e
    rw [bLookup_cons] at h
    by_cases hak : a = k
    · subst hak
      rw [if_pos rfl] at h
      cases h
      exact List.mem_cons_self _ _
    · rw [if_neg hak] at h
      exact List.mem_cons_of_mem _ (ih h)

theorem bLookup_isSome_of_mem {m : BMap} {k : Nat}
    (h : k ∈ m.map Prod.fst) : (bLookup m k).isSome := by
  cases hl : bLookup m k with
  | none => exact absurd ((bLookup_eq_none_iff m k).mp hl) (by simp [h])
  | some l => rfl

theorem bInsert_nil (k : Nat) (v : List Backup) : bInsert [] k v = [(k, v)] := rfl

theorem bInsert_cons (a : Nat) (w : List Backup) (t : BMap) (k : Nat) (v : List Backup) :
    bInsert ((a, w) :: t) k v
      = if a = k then (k, v) :: t else (a, w) :: bInsert t k v := rfl

theorem mem_keys_bInsert {m : BMap} {k : Nat} {v : List Backup} {a : Nat}
    (h : a ∈ (bInsert m k v).map Prod.fst) : a ∈ m.map Prod.fst ∨ a = k := by
  induction m with
  | nil =>
    right
    rw [bInsert_nil] at h
    rcases List.mem_map.mp h with ⟨e, he, hfst⟩
    rcases List.mem_singleton.mp he with rfl
    exact hfst.symm
  | cons e t ih =>
    obtain ⟨b, w⟩ := e
    rw [bInsert_cons] at h
    by_cases hbk : b = k
    · rw [if_pos hbk] at h
      subst hbk
      rw [List.map_cons] at h
      rcases List.mem_cons.mp h with h' | h'
      · right; exact h'
      · left; rw [List.map_cons]; exact List.mem_cons_of_mem _ h'
    · rw [if_neg hbk, List.map_cons] at h
      rcases List.mem_cons.mp h with h' | h'
      · left
        rw [List.map_cons, h']
        exact List.mem_cons_self _ _
      · rcases ih h' with h'' | h''
        · left; rw [List.map_cons]; exact List.mem_cons_of_mem _ h''
        · right; exact h''

theorem bInsert_nodup {m : BMap} (k : Nat) (v : List Backup)
    (h : (m.map Prod.fst).Nodup) : ((bInsert m k v).map Prod.fst).Nodup := by
  induction m with
  | nil => simp [bInsert_nil]
  | cons e t ih =>
    obtain ⟨a, w⟩ := e
    rw [List.map_cons, List.nodup_cons] at h
    obtain ⟨ha, ht⟩ := h
    rw [bInsert_cons]
    by_cases hak : a = k
    · rw [if_pos hak]
      subst hak
      rw [List.map_cons, List.nodup_cons]
      exact ⟨ha, ht⟩
    · rw [if_neg hak, List.map_cons, List.nodup_cons]
      refine ⟨?_, ih ht⟩
      intro hmem
      rcases mem_keys_bInsert hmem with h' | h'
      · exact ha h'
      · exact hak h'

theorem bInsert_length_le (m : BMap) (k : Nat) (v : List Backup) :
    (bInsert m k v).length ≤ m.length + 1 := by
  induction m with
  | nil => simp [bInsert]
  | cons e t ih =>
    obtain ⟨a, w⟩ := e
    show (if a = k then (k, v) :: t else (a, w) :: bInsert t k v).length ≤ t.length + 1 + 1
    by_cases hak : a = k
    · rw [if_pos hak]
      simp
    · rw [if_neg hak]
      simp only [List.length_cons]
      omega

theorem bDelete_eq_of_not_mem {m : BMap} {k : Nat}
    (h : k ∉ m.map Prod.fst) : bDelete m k = m := by
  induction m with
  | nil => rfl
  | cons e t ih =>
    obtain ⟨a, w⟩ := e
    rw [List.map_cons] at h
    have ha : ¬ a = k := fun hh => h (by rw [hh]; exact List.mem_cons_self _ _)
    have ht : k ∉ t.map Prod.fst := fun hh => h (List.mem_cons_of_mem _ hh)
    rw [bDelete_cons, if_neg ha, ih ht]

theorem bDelete_keys_sublist (m : BMap) (k : Nat) :
    ((bDelete m k).map Prod.fst).Sublist (m.map Prod.fst) := by
  induction m with
  | nil => simp [bDelete]
  | cons e t ih =>
    obtain ⟨a, w⟩ := e
    rw [bDelete_cons]
    by_cases hak : a = k
    · rw [if_pos hak, List.map_cons]
      exact ih.trans (List.sublist_cons_self _ _)
    · rw [if_neg hak, List.map_cons, List.map_cons]
      exact ih.cons₂ a

theorem bDelete_nodup {m : BMap} (k : Nat)
    (h : (m.map Prod.fst).Nodup) : ((bDelete m k).map Prod.fst).Nodup :=
  h.sublist (bDelete_keys_sublist m k)

theorem bDelete_length_mem {m : BMap} {k : Nat}
    (hnd : (m.map Prod.fst).Nodup) (hmem : k ∈ m.map Prod.fst) :
    (bDelete m k).length + 1 = m.length := by
  induction m with
  | nil => exact absurd hmem (by simp)
  | cons e t ih =>
    obtain ⟨a, w⟩ := e
    rw [List.map_cons, List.nodup_cons] at hnd
    obtain ⟨ha, ht⟩ := hnd
    rw [bDelete_cons]
    by_cases hak : a = k
    · subst hak
      rw [if_pos rfl, bDelete_eq_of_not_mem ha, List.length_cons]
    · rw [if_neg hak, List.length_cons, List.length_cons]
      have hk : k ∈ t.map Prod.fst := by
        rcases List.mem_cons.mp (by rw [List.map_cons] at hmem; exact hmem) with h' | h'
        · exact absurd h'.symm hak
        · exact h'
      rw [← ih ht hk]

theorem listMin_mem {l : List Nat} {k : Nat} (h : listMin l = some k) : k ∈ l := by
  induction l with
  | nil => simp [listMin] at h
  | cons x t ih =>
    simp [listMin] at h
    cases ht : listMin t with
    | none => rw [ht] at h; simp at h; simp [h]
    | some y =>
      rw [ht] at h
      simp at h
      rcases min_cases x y with ⟨hm, _⟩ | ⟨hm, _⟩
      · rw [hm] at h; simp [h]
      · rw [hm] at h
        right
        rw [← h] at ih ⊢
        exact ih ht

theorem listMax_mem {l : List Nat} {k : Nat} (h : listMax l = some k) : k ∈ l := by
  induction l with
  | nil => simp [listMax] at h
  | cons x t ih =>
    simp [listMax] at h
    cases ht : listMax t with
    | none => rw [ht] at h; simp at h; simp [h]
    | some y =>
      rw [ht] at h
      simp at h
      rcases max_cases x y with ⟨hm, _⟩ | ⟨hm, _⟩
      · rw [hm] at h; simp [h]
      · rw [hm] at h
        right
        rw [← h] at ih ⊢
        exact ih ht

theorem listMin_isSome {l : List Nat} (h : l ≠ []) : (listMin l).isSome := by
  cases l with
  | nil => exact absurd rfl h
  | cons x t =>
    simp [listMin]
    cases listMin t <;> simp

theorem listMax_isSome {l : List Nat} (h : l ≠ []) : (listMax l).isSome := by
  cases l with
  | nil => exact absurd rfl h
  | cons x t =>
    simp [listMax]
    cases listMax t <;> simp

theorem mem_of_getLast_opt {α : Type} {l : List α} {b : α}
    (h : l.getLast? = some b) : b ∈ l := by
  induction l with
  | nil => simp at h
  | cons x t ih =>
    cases t with
    | nil => simp at h; simp [h]
    | cons y u =>
      rw [List.getLast?_cons_cons] at h
      exact List.mem_cons_of_mem _ (ih h)

theorem getLast_opt_isSome {α : Type} {l : List α} (h : l ≠ []) :
    (l.getLast? ).isSome := by
  induction l with
  | nil => exact absurd rfl h
  | cons x t ih =>
    cases ht : t with
    | nil => simp
    | cons y u =>
      rw [List.getLast?_cons_cons]
      rw [← ht]
      exact ih (by simp [ht])

theorem addBackup_eq (today : Nat) (b : Backup) (m : BMap) :
    addBackup today b m
      = bInsert (preEvict m) today (newBucket b (bLookup (preEvict m) today)) := by
  rw [addBackup, preEvict]
  cases bLookup (if BACKUPS_PER_NOTEBOOK < m.length then evictOldest m else m) today with
  | none => rfl
  | some l =>
    by_cases hl : l.length < BACKUPS_PER_DAY
    · simp only [newBucket, if_pos hl]
    · simp only [newBucket, if_neg hl]

theorem newBucket_getLast (b : Backup) (o : Option (List Backup)) :
    (newBucket b o).getLast? = some b := by
  cases o with
  | none => rfl
  | some l =>
    by_cases hl : l.length < BACKUPS_PER_DAY
    · simp only [newBucket, if_pos hl]
      exact List.getLast?_concat _
    · simp only [newBucket, if_neg hl]
      exact List.getLast?_concat _

theorem newBucket_length_le (b : Backup) {o : Option (List Backup)}
    (h : ∀ l, o = some l → l.length ≤ BACKUPS_PER_DAY) :
    (newBucket b o).length ≤ BACKUPS_PER_DAY := by
  cases o with
  | none => simp [newBucket, BACKUPS_PER_DAY]
  | some l =>
    have hll := h l rfl
    by_cases hl : l.length < BACKUPS_PER_DAY
    · simp only [newBucket, if_pos hl, List.length_append, List.length_singleton]
      simp only [BACKUPS_PER_DAY] at hll hl ⊢
      omega
    · simp only [newBucket, if_neg hl, List.length_append, List.length_singleton,
        List.length_drop]
      simp only [BACKUPS_PER_DAY] at hll hl ⊢
      omega

theorem evictOldest_eq_some {m : BMap} {k : Nat}
    (h : listMin (m.map Prod.fst) = some k) : evictOldest m = bDelete m k := by
  rw [evictOldest, h]

theorem evictOldest_eq_none {m : BMap}
    (h : listMin (m.map Prod.fst) = none) : evictOldest m = m := by
  rw [evictOldest, h]

theorem preEvict_lookup_le {m : BMap} {k : Nat} {l : List Backup}
    (h : bLookup (preEvict m) k = some l) : bLookup m k = some l := by
  rw [preEvict] at h
  by_cases hc : BACKUPS_PER_NOTEBOOK < m.length
  · rw [if_pos hc] at h
    cases hmin : listMin (m.map Prod.fst) with
    | none => rw [evictOldest_eq_none hmin] at h; exact h
    | some k0 =>
      rw [evictOldest_eq_some hmin, bLookup_bDelete] at h
      by_cases hk : k = k0
      · rw [if_pos hk] at h; cases h
      · rw [if_neg hk] at h; exact h
  · rw [if_neg hc] at h; exact h

theorem preEvict_nodup {m : BMap} (h : (m.map Prod.fst).Nodup) :
    ((preEvict m).map Prod.fst).Nodup := by
  rw [preEvict]
  by_cases hc : BACKUPS_PER_NOTEBOOK < m.length
  · rw [if_pos hc]
    cases hmin : listMin (m.map Prod.fst) with
    | none => rw [evictOldest_eq_none hmin]; exact h
    | some k0 => rw [evictOldest_eq_some hmin]; exact bDelete_nodup k0 h
  · rw [if_neg hc]; exact h

theorem preEvict_length_le {m : BMap} (hnd : (m.map Prod.fst).Nodup)
    (hlen : m.length ≤ BACKUPS_PER_NOTEBOOK + 1) :
    (preEvict m).length ≤ BACKUPS_PER_NOTEBOOK := by
  rw [preEvict]
  by_cases hc : BACKUPS_PER_NOTEBOOK < m.length
  · rw [if_pos hc]
    have hne : m.map Prod.fst ≠ [] := by
      cases m with
      | nil => exact absurd hc (by simp)
      | cons e t => simp
    cases hmin : listMin (m.map Prod.fst) with
    | none => exact absurd hmin (by
        have hs := listMin_isSome hne
        intro hcon
        rw [hcon] at hs
        simp at hs)
    | some k0 =>
      rw [evictOldest_eq_some hmin]
      have hmem := listMin_mem hmin
      have hdl := bDelete_length_mem hnd hmem
      simp only [BACKUPS_PER_NOTEBOOK] at hc hlen ⊢
      omega
  · rw [if_neg hc]
    simp only [BACKUPS_PER_NOTEBOOK] at hc ⊢
    omega

theorem addBackup_length_le {m : BMap} (today : Nat) (b : Backup)
    (hnd : (m.map Prod.fst).Nodup) (hlen : m.length ≤ BACKUPS_PER_NOTEBOOK + 1) :
    (addBackup today b m).length ≤ BACKUPS_PER_NOTEBOOK + 1 := by
  rw [addBackup_eq]
  have h1 := preEvict_length_le hnd hlen
  have h2 := bInsert_length_le (preEvict m) today
    (newBucket b (bLookup (preEvict m) today))
  simp only [BACKUPS_PER_NOTEBOOK] at h1 ⊢
  omega

theorem addBackup_nodup {m : BMap} (today : Nat) (b : Backup)
    (hnd : (m.map Prod.fst).Nodup) :
    ((addBackup today b m).map Prod.fst).Nodup := by
  rw [addBackup_eq]
  exact bInsert_nodup _ _ (preEvict_nodup hnd)

theorem addBackup_bucket_le {m : BMap} (today : Nat) (b : Backup)
    (hbk : ∀ k l, bLookup m k = some l → l.length ≤ BACKUPS_PER_DAY) :
    ∀ k l, bLookup (addBackup today b m) k = some l → l.length ≤ BACKUPS_PER_DAY := by
  intro k l h
  rw [addBackup_eq, bLookup_bInsert] at h
  by_cases hk : k = today
  · rw [if_pos hk] at h
    cases h
    exact newBucket_length_le b fun l' hl' => hbk today l' (preEvict_lookup_le hl')
  · rw [if_neg hk] at h
    exact hbk k l (preEvict_lookup_le h)

theorem addBackup_evicts {m : BMap} {today k : Nat} (b : Backup)
    (hc : BACKUPS_PER_NOTEBOOK < m.length)
    (hmin : listMin (m.map Prod.fst) = some k) (hk : k ≠ today) :
    bLookup (addBackup today b m) k = none := by
  rw [addBackup_eq, bLookup_bInsert, if_neg hk, preEvict, if_pos hc,
    evictOldest_eq_some hmin, bLookup_bDelete, if_pos rfl]

theorem preEvict_lookup_today {m : BMap} {today : Nat}
    (hno : m.length ≤ BACKUPS_PER_NOTEBOOK ∨ listMin (m.map Prod.fst) ≠ some today) :
    bLookup (preEvict m) today = bLookup m today := by
  rw [preEvict]
  by_cases hc : BACKUPS_PER_NOTEBOOK < m.length
  · rw [if_pos hc]
    rcases hno with hno | hno
    · exact absurd hc (not_lt.mpr hno)
    · cases hmin : listMin (m.map Prod.fst) with
      | none => rw [evictOldest_eq_none hmin]
      | some k0 =>
        have hk0 : today ≠ k0 := by
          intro hcon
          rw [hcon] at hno
          exact hno hmin
        rw [evictOldest_eq_some hmin, bLookup_bDelete, if_neg hk0]
  · rw [if_neg hc]

theorem addBackup_lookup_today {m : BMap} (today : Nat) (b : Backup)
    (hno : m.length ≤ BACKUPS_PER_NOTEBOOK ∨ listMin (m.map Prod.fst) ≠ some today) :
    bLookup (addBackup today b m) today = some (newBucket b (bLookup m today)) := by
  rw [addBackup_eq, bLookup_bInsert, if_pos rfl, preEvict_lookup_today hno]

theorem addBackup_today_last (today : Nat) (b : Backup) (m : BMap) :
    ∃ L, bLookup (addBackup today b m) today = some L ∧ L.getLast? = some b := by
  refine ⟨newBucket b (bLookup (preEvict m) today), ?_, newBucket_getLast b _⟩
  rw [addBackup_eq, bLookup_bInsert, if_pos rfl]

theorem storeLookup_mem_exists {store : Store} {path : String} {b : Backups}
    (h : storeLookup store path = some b) : ∃ p, (p, b) ∈ store := by
  induction store with
  | nil => simp [storeLookup] at h
  | cons e t ih =>
    obtain ⟨p, v⟩ := e
    by_cases hp : p = path
    · subst hp
      simp [storeLookup] at h
      exact ⟨p, by simp [h]⟩
    · simp [storeLookup, hp] at h
      obtain ⟨q, hq⟩ := ih h
      exact ⟨q, List.mem_cons_of_mem _ hq⟩

theorem storeSet_lookup_self (store : Store) (path : String) (v : Backups) :
    storeLookup (storeSet store path v) path = some v := by
  induction store with
  | nil => simp [storeSet, storeLookup]
  | cons e t ih =>
    obtain ⟨p, w⟩ := e
    by_cases hp : p = path
    · subst hp
      simp [storeSet, storeLookup]
    · simp [storeSet, storeLookup, hp, ih]

theorem cloneBackup_eq (ctr : Nat) (b : Backup) :
    cloneBackup ctr b
      = ({ b with
            cells := ⟨ctr, b.cells.val⟩,
            config := b.config.map fun c => ⟨ctr + 1, c.val⟩,
            updates := ⟨ctr + 2, b.updates.val⟩ }, ctr + 3) := rfl

theorem cloneBucket_nil (ctr : Nat) : cloneBucket ctr [] = ([], ctr) := rfl

theorem cloneBucket_cons (ctr : Nat) (b : Backup) (t : List Backup) :
    cloneBucket ctr (b :: t)
      = ((cloneBackup ctr b).1 :: (cloneBucket (cloneBackup ctr b).2 t).1,
          (cloneBucket (cloneBackup ctr b).2 t).2) := rfl

theorem cloneBMap_nil (ctr : Nat) : cloneBMap ctr [] = ([], ctr) := rfl

theorem cloneBMap_cons (ctr k : Nat) (l : List Backup) (t : BMap) :
    cloneBMap ctr ((k, l) :: t)
      = ((k, (cloneBucket ctr l).1) :: (cloneBMap (cloneBucket ctr l).2 t).1,
          (cloneBMap (cloneBucket ctr l).2 t).2) := rfl

theorem cloneBucket_ctr_le (ctr : Nat) (l : List Backup) : ctr ≤ (cloneBucket ctr l).2 := by
  induction l generalizing ctr with
  | nil => rw [cloneBucket_nil]
  | cons b t ih =>
    rw [cloneBucket_cons]
    have h1 : (cloneBackup ctr b).2 = ctr + 3 := rfl
    have h2 := ih (cloneBackup ctr b).2
    omega

theorem cloneBucket_rid_ge {ctr : Nat} {l : List Backup} {b : Backup}
    (h : b ∈ (cloneBucket ctr l).1) : ctr ≤ b.cells.rid := by
  induction l generalizing ctr with
  | nil => rw [cloneBucket_nil] at h; exact absurd h (List.not_mem_nil b)
  | cons b0 t ih =>
    rw [cloneBucket_cons] at h
    rcases List.mem_cons.mp h with h' | h'
    · rw [h']
      show ctr ≤ ctr
      exact Nat.le_refl ctr
    · have h1 : (cloneBackup ctr b0).2 = ctr + 3 := rfl
      have h2 := ih h'
      omega

theorem cloneBucket_length (ctr : Nat) (l : List Backup) :
    (cloneBucket ctr l).1.length = l.length := by
  induction l generalizing ctr with
  | nil => rw [cloneBucket_nil]
  | cons b t ih =>
    rw [cloneBucket_cons, List.length_cons, List.length_cons, ih]

theorem cloneBMap_rid_ge {ctr : Nat} {m : BMap} {k : Nat} {l : List Backup} {b : Backup}
    (hl : (k, l) ∈ (cloneBMap ctr m).1) (hb : b ∈ l) : ctr ≤ b.cells.rid := by
  induction m generalizing ctr with
  | nil => rw [cloneBMap_nil] at hl; exact absurd hl (List.not_mem_nil _)
  | cons e t ih =>
    obtain ⟨k0, l0⟩ := e
    rw [cloneBMap_cons] at hl
    rcases List.mem_cons.mp hl with h' | h'
    · have hleq : l = (cloneBucket ctr l0).1 := congrArg Prod.snd h'
      rw [hleq] at hb
      exact cloneBucket_rid_ge hb
    · have h1 := cloneBucket_ctr_le ctr l0
      have h2 := ih h'
      omega

theorem cloneBMap_lookup_some (ctr : Nat) {m : BMap} {k : Nat} {l : List Backup}
    (h : bLookup m k = some l) :
    ∃ s, ctr ≤ s ∧ bLookup (cloneBMap ctr m).1 k = some (cloneBucket s l).1 := by
  induction m generalizing ctr with
  | nil => exact absurd h (by simp [bLookup])
  | cons e t ih =>
    obtain ⟨k0, l0⟩ := e
    rw [bLookup_cons] at h
    rw [cloneBMap_cons]
    by_cases hk : k0 = k
    · rw [if_pos hk] at h
      cases h
      exact ⟨ctr, Nat.le_refl ctr, by rw [bLookup_cons, if_pos hk]⟩
    · rw [if_neg hk] at h
      obtain ⟨s, hs, hlook⟩ := ih ((cloneBucket ctr l0).2) h
      have hle := cloneBucket_ctr_le ctr l0
      exact ⟨s, by omega, by rw [bLookup_cons, if_neg hk]; exact hlook⟩

theorem cloneBMap_lookup_rev {ctr : Nat} {m : BMap} {k : Nat} {l' : List Backup}
    (h : bLookup (cloneBMap ctr m).1 k = some l') :
    ∃ s l, bLookup m k = some l ∧ l' = (cloneBucket s l).1 := by
  induction m generalizing ctr with
  | nil => rw [cloneBMap_nil] at h; exact absurd h (by simp [bLookup])
  | cons e t ih =>
    obtain ⟨k0, l0⟩ := e
    rw [cloneBMap_cons, bLookup_cons] at h
    by_cases hk : k0 = k
    · rw [if_pos hk] at h
      cases h
      exact ⟨ctr, l0, by rw [bLookup_cons, if_pos hk], rfl⟩
    · rw [if_neg hk] at h
      obtain ⟨s, l, hl, hcl⟩ := ih h
      exact ⟨s, l, by rw [bLookup_cons, if_neg hk]; exact hl, hcl⟩

theorem cloneBucket_getLast {l : List Backup} {b : Backup}
    (h : l.getLast? = some b) (s0 : Nat) :
    ∃ s, s0 ≤ s ∧ (cloneBucket s0 l).1.getLast? = some (cloneBackup s b).1 := by
  induction l generalizing s0 with
  | nil => exact absurd h (by simp)
  | cons b0 t ih =>
    cases t with
    | nil =>
      simp only [List.getLast?_singleton, Option.some.injEq] at h
      subst h
      exact ⟨s0, Nat.le_refl s0, rfl⟩
    | cons c u =>
      rw [List.getLast?_cons_cons] at h
      obtain ⟨s, hs, hg⟩ := ih h (cloneBackup s0 b0).2
      have h3 : (cloneBackup s0 b0).2 = s0 + 3 := rfl
      refine ⟨s, by omega, ?_⟩
      rw [cloneBucket_cons] at hg
      rw [cloneBucket_cons, cloneBucket_cons, List.getLast?_cons_cons]
      exact hg

theorem latestBackup_mem {today : Nat} {m : BMap} {b : Backup}
    (h : latestBackup today m = some b) : ∃ k l, bLookup m k = some l ∧ b ∈ l := by
  rw [latestBackup] at h
  cases ht : bLookup m today with
  | some l =>
    rw [ht] at h
    exact ⟨today, l, ht, mem_of_getLast_opt h⟩
  | none =>
    rw [ht] at h
    cases hmax : listMax (m.map Prod.fst) with
    | none =>
      rw [hmax] at h
      have h' : (none : Option Backup) = some b := h
      cases h'
    | some k =>
      rw [hmax] at h
      have h' : (bLookup m k).bind List.getLast? = some b := h
      cases hl : bLookup m k with
      | none => rw [hl] at h'; cases h'
      | some l =>
        rw [hl] at h'
        exact ⟨k, l, hl, mem_of_getLast_opt h'⟩

theorem equals_true_cells_rid {b1 b2 : Backup} (h : b1.equals b2 = true) :
    b1.cells.rid = b2.cells.rid := by
  simp only [Backup.equals, Bool.and_eq_true, beq_iff_eq] at h
  exact h.1.1.2

theorem pushUpdLast_getLast {l : List Backup} {b : Backup}
    (h : l.getLast? = some b) (now : Nat) (upd : NotebookUpdate) :
    (pushUpdLast now upd l).getLast?
      = some { b with updates := ⟨b.updates.rid, b.updates.val ++ [⟨now, upd⟩]⟩ } := by
  rw [pushUpdLast, h]
  exact List.getLast?_concat _

theorem wfStore_lookup {store : Store} {path : String} {ib : Backups}
    (hwf : wfStore store = true) (h : storeLookup store path = some ib) :
    ib.backups ≠ [] ∧ ∀ k l, bLookup ib.backups k = some l → l ≠ [] := by
  obtain ⟨p, hp⟩ := storeLookup_mem_exists h
  have hib : wfBackups ib = true := by
    rw [wfStore, List.all_eq_true] at hwf
    exact hwf (p, ib) hp
  rw [wfBackups, Bool.and_eq_true] at hib
  constructor
  · intro hcon
    rw [hcon] at hib
    simp at hib
  · intro k l hl
    have hmem := bLookup_mem_exists hl
    have := (List.all_eq_true.mp hib.2) (k, l) hmem
    intro hcon
    rw [hcon] at this
    simp at this

theorem addUpdate_isSome {today now : Nat} {upd : NotebookUpdate} {m : BMap}
    (hne : m ≠ []) (hbk : ∀ k l, bLookup m k = some l → l ≠ []) :
    (addUpdate today now upd m).isSome := by
  rw [addUpdate]
  split
  next l ht =>
    split
    next => rfl
    next hg =>
      have hgs := getLast_opt_isSome (hbk today l ht)
      rw [hg] at hgs
      simp at hgs
  next ht =>
    split
    next hmax =>
      have hkeys : m.map Prod.fst ≠ [] := by
        cases m with
        | nil => exact absurd rfl hne
        | cons e t => simp
      have hms := listMax_isSome hkeys
      rw [hmax] at hms
      simp at hms
    next k hmax =>
      split
      next hl =>
        have hsome := bLookup_isSome_of_mem (listMax_mem hmax)
        rw [hl] at hsome
        simp at hsome
      next l hl =>
        split
        next => rfl
        next hg =>
          have hgs := getLast_opt_isSome (hbk k l hl)
          rw [hg] at hgs
          simp at hgs

theorem addUpdate_today_some {m : BMap} {today : Nat} {l : List Backup} {b : Backup}
    (h : bLookup m today = some l) (hg : l.getLast? = some b) (now : Nat)
    (upd : NotebookUpdate) :
    addUpdate today now upd m = some (bInsert m today (pushUpdLast now upd l)) := by
  rw [addUpdate]
  split
  next l' ht' =>
    rw [h] at ht'
    cases ht'
    split
    next => rfl
    next hg' => rw [hg] at hg'; cases hg'
  next ht' => rw [h] at ht'; cases ht'

theorem updateNb_result {store : Store} {path : String} {ib : Backups} {m2 : BMap}
    {upd : NotebookUpdate} {now today ctr : Nat}
    (hsl : storeLookup store path = some ib)
    (hau : addUpdate today now upd (cloneBMap ctr ib.backups).1 = some m2) :
    updateNb store path upd now today ctr
      = .ok (storeSet store path ⟨ib.path, m2⟩, ⟨ib.path, m2⟩) := by
  simp only [updateNb]
  split
  next ht' => rw [hsl] at ht'; cases ht'
  next ib' hib' =>
    rw [hsl] at hib'
    cases hib'
    split
    next hau' => rw [hau] at hau'; cases hau'
    next m2' hau' =>
      rw [hau] at hau'
      cases hau'
      rfl

theorem updateNb_error_of_none {store : Store} {path : String} (upd : NotebookUpdate)
    (now today ctr : Nat) (hsl : storeLookup store path = none) :
    isErr (updateNb store path upd now today ctr) = true := by
  simp only [updateNb]
  split
  next => rfl
  next ib hib => rw [hsl] at hib; cases hib

theorem updateNb_isErr_false {store : Store} {path : String} {ib : Backups}
    (upd : NotebookUpdate) (now today ctr : Nat)
    (hsl : storeLookup store path = some ib)
    (hne : ib.backups ≠ []) (hbk : ∀ k l, bLookup ib.backups k = some l → l ≠ []) :
    isErr (updateNb store path upd now today ctr) = false := by
  have hclne : (cloneBMap ctr ib.backups).1 ≠ [] := by
    cases hbb : ib.backups with
    | nil => exact absurd hbb hne
    | cons e t =>
      obtain ⟨k, l⟩ := e
      rw [cloneBMap_cons]
      simp
  have hclbk : ∀ k l', bLookup (cloneBMap ctr ib.backups).1 k = some l' → l' ≠ [] := by
    intro k l' h
    obtain ⟨s, l, hl, hcl⟩ := cloneBMap_lookup_rev h
    subst hcl
    intro hcon
    have hlen := cloneBucket_length s l
    rw [hcon] at hlen
    simp at hlen
    exact (hbk k l hl) (List.eq_nil_of_length_eq_zero hlen.symm)
  have hsome : (addUpdate today now upd (cloneBMap ctr ib.backups).1).isSome :=
    addUpdate_isSome hclne hclbk
  simp only [updateNb]
  split
  next ht' => rw [hsl] at ht'; cases ht'
  next ib' hib' =>
    rw [hsl] at hib'
    cases hib'
    split
    next hau => rw [hau] at hsome; simp at hsome
    next m2 hau => rfl

/-! ## The no-op branch of `addNb` is dead code -/

theorem latestBackup_clone_rid_ge {today ctr : Nat} {m : BMap} {b : Backup}
    (h : latestBackup today (cloneBMap ctr m).1 = some b) : ctr ≤ b.cells.rid := by
  obtain ⟨k, l, hl, hb⟩ := latestBackup_mem h
  exact cloneBMap_rid_ge (bLookup_mem_exists hl) hb

theorem addNb_noop_condition (store : Store) (path : String) (cells : List NotebookCell)
    (config : Option ConfigRef) (now today ctr : Nat) :
    ((latestBackup today (baseBackups store path ctr).backups).map
        fun l => l.equals (freshBackup path cells config now ctr)).getD false = false := by
  cases hsl : storeLookup store path with
  | none => simp only [baseBackups, hsl]; rfl
  | some ib =>
    simp only [baseBackups, hsl]
    cases hlb : latestBackup today (cloneBMap (ctr + 2) ib.backups).1 with
    | none => rfl
    | some latest =>
      show (some (latest.equals (freshBackup path cells config now ctr))).getD false = false
      cases hq : latest.equals (freshBackup path cells config now ctr) with
      | false => rfl
      | true =>
        have hrid := equals_true_cells_rid hq
        have hfr : (freshBackup path cells config now ctr).cells.rid = ctr := rfl
        have hge := latestBackup_clone_rid_ge hlb
        rw [hfr] at hrid
        omega

theorem addNb_result (store : Store) (path : String) (cells : List NotebookCell)
    (config : Option ConfigRef) (now today ctr : Nat) :
    addNb store path cells config now today ctr
      = (storeSet store path
            ⟨(baseBackups store path ctr).path,
              addBackup today (freshBackup path cells config now ctr)
                (baseBackups store path ctr).backups⟩,
          ⟨(baseBackups store path ctr).path,
            addBackup today (freshBackup path cells config now ctr)
              (baseBackups store path ctr).backups⟩,
          false) := by
  rw [addNb, addNb_noop_condition]
  rfl

/-! ## Dispatcher claims -/

/-- C1: the claim says every notebook-mutating dispatch (CreateCell,
UpdateCell, DeleteCell, UpdateConfig) increments the stored `localVersion`,
so after N such dispatches from 0 it equals N.  Evaluating the code: the
CreateCell and UpdateCell branches compute `state.localVersion + 1` only
into a local variable and return a state that does not write `localVersion`
back, so a CreateCell followed by an UpdateCell leaves the stored
`localVersion` at 0 (the claim says 2); the DeleteCell and UpdateConfig
branches do store the increment, giving 2 after two of them. -/
theorem c1_local_version_not_incremented :
    (dispatchSeq [UIAction.createCell "scala" "" meta0 0,
                  UIAction.updateCell 0 [] none none] demoState).localVersion = 0
    ∧ (dispatchSeq [UIAction.deleteCell 0, UIAction.updateConfig ⟨1⟩] demoState).localVersion = 2 :=
  ⟨rfl, rfl⟩

/-- C2: evaluating `CreateCell("scala", "", meta, prev = 0)` on the scenario
state (cells `[{id:0},{id:1}]`, `localVersion = 0`).  The parts of the claim
about the outbound message hold: exactly one `InsertCell` is sent, carrying
`localVersion = 1` and a new cell with id `2 = max existing id + 1`.  The
parts about the local state fail: the returned state's `cells` are unchanged
(no optimistic insertion after cell 0) and its `localVersion` is still 0
(the increment is never stored); only the edit buffer changes. -/
theorem c2_create_cell_scenario :
    (dispatch (UIAction.createCell "scala" "" meta0 0) demoState).2
      = [Evt.sent demoInsertMsg]
    ∧ (dispatch (UIAction.createCell "scala" "" meta0 0) demoState).1.cells = demoState.cells
    ∧ (dispatch (UIAction.createCell "scala" "" meta0 0) demoState).1.localVersion = 0
    ∧ (dispatch (UIAction.createCell "scala" "" meta0 0) demoState).1.editBuffer
      = [(0, demoInsertMsg)] :=
  ⟨rfl, rfl, rfl, rfl⟩

/-- C3: the claim says each content-mutating dispatch buffers the sent
message at a key equal to the incremented `localVersion` the message
carries.  Evaluating the code: the CreateCell branch sends a message
embedding `localVersion = 1` but pushes it into the edit buffer at key
`state.localVersion = 0` (the not-incremented value), so the buffer key and
the embedded version disagree; the DeleteCell branch, by contrast, buffers
at key 1 the message embedding 1. -/
theorem c3_buffer_key_mismatch :
    (dispatch (UIAction.createCell "scala" "" meta0 0) demoState).1.editBuffer
      = [(0, Message.insertCell 0 1 ⟨2, "scala", "", [], meta0, []⟩ 0)]
    ∧ (dispatch (UIAction.deleteCell 0) demoState).1.editBuffer
      = [(1, Message.deleteCell 0 1 0)] :=
  ⟨rfl, rfl⟩

/-- C8: dispatching `RequestCompletions` (resp. `RequestSignature`) while a
request of the same kind is pending first sends the probe message, rejects
the pending request's callback, and installs the new callback as the single
active slot; superseded requests are never left dangling. -/
theorem c8_single_inflight_replacement :
    ∀ (s : NotebookState) (cid off : Int) (h p : Nat),
      (s.activeCompletion = some p →
        (dispatch (UIAction.requestCompletions cid off h) s).2
          = [Evt.sent (Message.completionsAt cid off []), Evt.rejectedCompletion p]
        ∧ (dispatch (UIAction.requestCompletions cid off h) s).1.activeCompletion = some h)
      ∧ (s.activeSignature = some p →
        (dispatch (UIAction.requestSignature cid off h) s).2
          = [Evt.sent (Message.parametersAt cid off), Evt.rejectedSignature p]
        ∧ (dispatch (UIAction.requestSignature cid off h) s).1.activeSignature = some h) := by
  intro s cid off h p
  constructor
  · intro hp
    refine ⟨?_, rfl⟩
    simp [dispatch, hp]
  · intro hp
    refine ⟨?_, rfl⟩
    simp [dispatch, hp]

/-- C8 witness: on `demoStateC` (pending completion handler 7, pending
signature handler 8) a second completion request rejects handler 7 and a
second signature request rejects handler 8. -/
theorem c8_single_inflight_replacement_witness :
    (demoStateC.activeCompletion = some 7
      ∧ ((dispatch (UIAction.requestCompletions 0 3 9) demoStateC).2
          = [Evt.sent (Message.completionsAt 0 3 []), Evt.rejectedCompletion 7]
        ∧ (dispatch (UIAction.requestCompletions 0 3 9) demoStateC).1.activeCompletion = some 9))
    ∧ (demoStateC.activeSignature = some 8
      ∧ ((dispatch (UIAction.requestSignature 0 3 9) demoStateC).2
          = [Evt.sent (Message.parametersAt 0 3), Evt.rejectedSignature 8]
        ∧ (dispatch (UIAction.requestSignature 0 3 9) demoStateC).1.activeSignature = some 9)) :=
  ⟨⟨rfl, (c8_single_inflight_replacement demoStateC 0 3 9 7).1 rfl⟩,
    ⟨rfl, (c8_single_inflight_replacement demoStateC 0 3 9 8).2 rfl⟩⟩

/-- C9 counterexample: the claim's fallback "(or to 0 if that was also
undefined)" is false.  Dispatching `SetSelectedCell(undefined, "above")` on
the two-cell state resolves to no cell at all — the code's fallback is
`selected === -1 ? 0 : selected`, which maps `undefined` to `undefined` —
so `activeCell` is `undefined` and no cell is marked selected, whereas the
claim says the selection would fall back to id 0. -/
theorem c9_undefined_falls_to_none :
    resolveSelection demoState.cells none (some SelRelative.above) = none
    ∧ (dispatch (UIAction.setSelectedCell none (some SelRelative.above)) demoState).1.activeCell
        = none
    ∧ ((dispatch (UIAction.setSelectedCell none (some SelRelative.above)) demoState).1.cells.map
          fun c => c.selected) = [false, false] := by
  refine ⟨rfl, rfl, ?_⟩
  decide

/-- C9 (amended): selection never throws (the branch is a total state
transformation); when the computed "above"/"below" neighbor does not exist,
the resolved id falls back to the originally requested id — except that a
requested id of `-1` falls back to `0`, and an undefined requested id
resolves to no selection (it does not fall back to 0).  In particular
`SetSelectedCell(id, "above")` on the first cell selects that cell itself
(for ids other than `-1`), and the dispatched state change is exactly the
selection bookkeeping driven by the resolved id. -/
theorem c9_selection_fallback :
    (∀ (cells : List CellState) (selected : Option Int) (rel : SelRelative),
      neighborId cells selected rel = none →
      resolveSelection cells selected (some rel)
        = if selected = some (-1) then some 0 else selected)
    ∧ (∀ (c : CellState) (t : List CellState), c.id ≠ -1 →
      resolveSelection (c :: t) (some c.id) (some SelRelative.above) = some c.id)
    ∧ (∀ (st : NotebookState) (selected : Option Int) (rel : Option SelRelative),
      (dispatch (UIAction.setSelectedCell selected rel) st).1.activeCell
        = st.cells.find? (fun cell =>
            decide (some cell.id = resolveSelection st.cells selected rel))
      ∧ (dispatch (UIAction.setSelectedCell selected rel) st).1.cells
        = st.cells.map (fun cell =>
            { cell with selected := decide (some cell.id = resolveSelection st.cells selected rel) })
      ∧ (dispatch (UIAction.setSelectedCell selected rel) st).2 = []) := by
  refine ⟨?_, ?_, ?_⟩
  · intro cells selected rel hne
    simp [resolveSelection, hne]
  · intro c t hc
    have hfind : findIndexId (c :: t) (some c.id) = 0 := by
      simp [findIndexId, findIndexIdAux]
    have hnb : neighborId (c :: t) (some c.id) SelRelative.above = none := by
      simp [neighborId, hfind, jsGet]
    simp [resolveSelection, hnb, hc]
  · intro st selected rel
    exact ⟨rfl, rfl, rfl⟩

/-- C9 witness: on the two-cell state, `SetSelectedCell(0, "above")` has no
neighbor above the first cell and resolves to cell 0 itself. -/
theorem c9_selection_fallback_witness :
    ((0 : Int) ≠ -1)
    ∧ resolveSelection (mkCellState 0 :: [mkCellState 1]) (some ((mkCellState 0).id))
        (some SelRelative.above) = some ((mkCellState 0).id) :=
  ⟨by decide, c9_selection_fallback.2.1 (mkCellState 0) [mkCellState 1] (by decide)⟩

/-- C10: the comment actions, `SetCurrentSelection`, `SetCellOutput`,
`RequestNotebookVersion`, `RequestCancelTasks` and `RequestClearOutput`
leave the notebook state completely unchanged and only send one protocol
message: no `localVersion` increment and no edit-buffer append (comment
edits are not version-tracked or buffered locally). -/
theorem latestBackup_today_some {m : BMap} {today : Nat} {l : List Backup}
    (h : bLookup m today = some l) : latestBackup today m = l.getLast? := by
  rw [latestBackup]
  split
  next l' h' => rw [h] at h'; cases h'; rfl
  next h' => rw [h] at h'; cases h'

theorem cexSingleBucket_bound :
    ∀ k l, bLookup ([(1, [cexBackup])] : BMap) k = some l →
      l.length ≤ BACKUPS_PER_DAY := by
  intro k l h
  rw [bLookup_cons] at h
  by_cases h1 : 1 = k
  · rw [if_pos h1] at h
    cases h
    decide
  · rw [if_neg h1] at h
    simp [bLookup] at h

/-- C4 counterexample: the store holds one backup for path `"nb"` whose
content (cleared cells, config, update log) is structurally equal to what
`addNb("nb", [cexCell])` builds, yet the call is not a no-op: the no-op
branch is not taken and the backup count for the path grows from 1 to 2,
because `Backup.equals` compares the array references, and the fresh
cleared-cells array is a different allocation from the stored (cloned)
one. -/
theorem c4_structural_equality_not_noop :
    clearCells [cexCell] = cexBackup.cells.val
    ∧ cexBackup.config = none
    ∧ cexBackup.updates.val = []
    ∧ (addNb cexStore "nb" [cexCell] none 60 5 100).2.2 = false
    ∧ pathBackupCount cexStore "nb" = 1
    ∧ pathBackupCount (addNb cexStore "nb" [cexCell] none 60 5 100).1 "nb" = 2 := by
  refine ⟨rfl, rfl, rfl, ?_, rfl, ?_⟩ <;> decide

/-- C4 (amended): `Backup.equals` is reference equality on the
cells/config/updates fields (not structural equality), and `addNb` always
allocates a fresh cleared-cells array while the stored latest backup comes
from a structured clone with strictly later allocation ids, so the
identical-latest no-op branch is never taken: every `addNb` call appends a
backup and persists, regardless of content equality. -/
theorem c4_addNb_never_noop :
    ∀ (store : Store) (path : String) (cells : List NotebookCell)
      (config : Option ConfigRef) (now today ctr : Nat),
      (addNb store path cells config now today ctr).2.2 = false := by
  intro store path cells config now today ctr
  rw [addNb_result]

set_option maxRecDepth 8000

/-- C5 counterexample: `addBackup` evicts only when the bucket count already
exceeds `BACKUPS_PER_NOTEBOOK` (strict `>`), so adding to a map with exactly
100 buckets and a new day creates a 101st bucket — the claimed "at most 100
day-buckets" invariant fails; and even starting from 101 buckets, the oldest
bucket (day 0) is removed but today's new bucket brings the total back to
101, not "at most 100". -/
theorem c5_bucket_limit_exceeded :
    cexBMap100.length = BACKUPS_PER_NOTEBOOK
    ∧ (addBackup 200 cexBackup cexBMap100).length = BACKUPS_PER_NOTEBOOK + 1
    ∧ cexBMap101.length = BACKUPS_PER_NOTEBOOK + 1
    ∧ bLookup (addBackup 200 cexBackup cexBMap101) 0 = none
    ∧ (addBackup 200 cexBackup cexBMap101).length = BACKUPS_PER_NOTEBOOK + 1 := by
  refine ⟨?_, ?_, ?_, ?_, ?_⟩ <;> decide

/-- C5 (amended): the retention invariant the code actually maintains after
each `addBackup` call is: at most `BACKUPS_PER_NOTEBOOK + 1 = 101`
day-buckets (not 100 — eviction fires only when the count already exceeds
100 before the add), at most `BACKUPS_PER_DAY = 10` backups per day-bucket,
key uniqueness preserved; and whenever more than 100 buckets exist before
the add, the oldest day-bucket (numerically smallest day timestamp, when it
is not today's bucket) is removed entirely. -/
theorem c5_retention_invariant :
    ∀ (m : BMap) (today : Nat) (b : Backup),
      (m.map Prod.fst).Nodup →
      m.length ≤ BACKUPS_PER_NOTEBOOK + 1 →
      (∀ k l, bLookup m k = some l → l.length ≤ BACKUPS_PER_DAY) →
      (addBackup today b m).length ≤ BACKUPS_PER_NOTEBOOK + 1
      ∧ ((addBackup today b m).map Prod.fst).Nodup
      ∧ (∀ k l, bLookup (addBackup today b m) k = some l → l.length ≤ BACKUPS_PER_DAY)
      ∧ (∀ k, BACKUPS_PER_NOTEBOOK < m.length → listMin (m.map Prod.fst) = some k →
          k ≠ today → bLookup (addBackup today b m) k = none) := by
  intro m today b hnd hlen hbk
  exact ⟨addBackup_length_le today b hnd hlen, addBackup_nodup today b hnd,
    addBackup_bucket_le today b hbk,
    fun k hc hmin hk => addBackup_evicts b hc hmin hk⟩

/-- C5 witness: the amended retention invariant applied to a one-bucket
map. -/
theorem c5_retention_invariant_witness :
    (([(1, [cexBackup])] : BMap).map Prod.fst).Nodup
    ∧ ([(1, [cexBackup])] : BMap).length ≤ BACKUPS_PER_NOTEBOOK + 1
    ∧ ((addBackup 1 cexBackup [(1, [cexBackup])]).length ≤ BACKUPS_PER_NOTEBOOK + 1
        ∧ ((addBackup 1 cexBackup [(1, [cexBackup])]).map Prod.fst).Nodup
        ∧ (∀ k l, bLookup (addBackup 1 cexBackup [(1, [cexBackup])]) k = some l →
            l.length ≤ BACKUPS_PER_DAY)
        ∧ (∀ k, BACKUPS_PER_NOTEBOOK < ([(1, [cexBackup])] : BMap).length →
            listMin (([(1, [cexBackup])] : BMap).map Prod.fst) = some k → k ≠ 1 →
            bLookup (addBackup 1 cexBackup [(1, [cexBackup])]) k = none)) :=
  ⟨by decide, by decide,
    c5_retention_invariant [(1, [cexBackup])] 1 cexBackup (by decide) (by decide)
      cexSingleBucket_bound⟩

/-- C6: as long as the total-limit phase does not delete today's bucket
(the bucket count is within the total limit, or the oldest day is not
today), `addBackup` treats today's bucket as a sliding window: a full bucket
(exactly `BACKUPS_PER_DAY` entries) loses exactly its earliest entry (index
0) and gains the new backup at the end, staying at 10; a bucket below the
limit is appended to without eviction; a missing bucket is created with the
new backup as sole entry. -/
theorem c6_per_day_sliding_window :
    ∀ (m : BMap) (today : Nat) (b : Backup),
      (m.length ≤ BACKUPS_PER_NOTEBOOK ∨ listMin (m.map Prod.fst) ≠ some today) →
      (∀ l, bLookup m today = some l → l.length = BACKUPS_PER_DAY →
        bLookup (addBackup today b m) today = some (l.drop 1 ++ [b])
        ∧ (l.drop 1 ++ [b]).length = BACKUPS_PER_DAY)
      ∧ (∀ l, bLookup m today = some l → l.length < BACKUPS_PER_DAY →
        bLookup (addBackup today b m) today = some (l ++ [b]))
      ∧ (bLookup m today = none → bLookup (addBackup today b m) today = some [b]) := by
  intro m today b hno
  refine ⟨?_, ?_, ?_⟩
  · intro l hl hlen
    constructor
    · rw [addBackup_lookup_today today b hno, hl]
      simp only [newBucket]
      rw [if_neg (by rw [hlen]; exact lt_irrefl _)]
    · rw [List.length_append, List.length_drop, hlen]
      rfl
  · intro l hl hlen
    rw [addBackup_lookup_today today b hno, hl]
    simp only [newBucket, if_pos hlen]
  · intro hl
    rw [addBackup_lookup_today today b hno, hl]
    rfl

/-- C6 witness: a full day-5 bucket of ten backups slides — the earliest
entry is evicted, the new backup is appended, and the size stays at 10. -/
theorem c6_per_day_sliding_window_witness :
    (cexBMap10.length ≤ BACKUPS_PER_NOTEBOOK ∨ listMin (cexBMap10.map Prod.fst) ≠ some 5)
    ∧ bLookup cexBMap10 5 = some cexBucket10
    ∧ cexBucket10.length = BACKUPS_PER_DAY
    ∧ bLookup (addBackup 5 cexBackup cexBMap10) 5 = some (cexBucket10.drop 1 ++ [cexBackup])
    ∧ (cexBucket10.drop 1 ++ [cexBackup]).length = BACKUPS_PER_DAY :=
  ⟨Or.inl (by decide), by decide, by decide,
    ((c6_per_day_sliding_window cexBMap10 5 cexBackup (Or.inl (by decide))).1 cexBucket10
      (by decide) (by decide)).1,
    ((c6_per_day_sliding_window cexBMap10 5 cexBackup (Or.inl (by decide))).1 cexBucket10
      (by decide) (by decide)).2⟩

theorem getBackups_error_iff (store : Store) (path : String) (ctr : Nat) :
    isErr (getBackups store path ctr) = true ↔ storeLookup store path = none := by
  simp only [getBackups]
  split
  next ib hib => simp [isErr, hib]
  next hib => simp [isErr, hib]

/-- C7: on stores whose entries are well-formed (nonempty bucket map with
nonempty buckets, as `addNb` produces), `updateNb` and `getBackups` reject
exactly when no entry is stored for the path — never silently substituting
empty data; and after an `addNb` for the path, the same `updateNb` call
succeeds and the latest backup's update list grows by exactly one entry
(from the fresh backup's empty list to the single new record). -/
theorem c7_notfound_iff_untracked :
    ∀ (store : Store) (path : String) (upd : NotebookUpdate) (now today ctr : Nat),
      wfStore store = true →
      (isErr (updateNb store path upd now today ctr) = true ↔ storeLookup store path = none)
      ∧ (isErr (getBackups store path ctr) = true ↔ storeLookup store path = none)
      ∧ (∀ (cells : List NotebookCell) (config : Option ConfigRef) (now0 ctr0 : Nat),
          ∃ st2 bks b,
            updateNb (addNb store path cells config now0 today ctr0).1 path upd now today ctr
              = .ok (st2, bks)
            ∧ latestBackup today bks.backups = some b
            ∧ b.updates.val = [⟨now, upd⟩]) := by
  intro store path upd now today ctr hwf
  refine ⟨?_, getBackups_error_iff store path ctr, ?_⟩
  · cases hsl : storeLookup store path with
    | none =>
      rw [updateNb_error_of_none upd now today ctr hsl]
      simp
    | some ib =>
      obtain ⟨hne, hbk⟩ := wfStore_lookup hwf hsl
      rw [updateNb_isErr_false upd now today ctr hsl hne hbk]
      simp
  · intro cells config now0 ctr0
    have hsl1 : storeLookup (addNb store path cells config now0 today ctr0).1 path
        = some ⟨(baseBackups store path ctr0).path,
            addBackup today (freshBackup path cells config now0 ctr0)
              (baseBackups store path ctr0).backups⟩ := by
      rw [addNb_result]
      exact storeSet_lookup_self store path _
    obtain ⟨L, hL, hLlast⟩ := addBackup_today_last today
      (freshBackup path cells config now0 ctr0) (baseBackups store path ctr0).backups
    obtain ⟨s, hs, hclone⟩ := cloneBMap_lookup_some ctr hL
    obtain ⟨s2, hs2, hg⟩ := cloneBucket_getLast hLlast s
    have hau := addUpdate_today_some hclone hg now upd
    have hup := updateNb_result hsl1 hau
    have hlook : bLookup (bInsert (cloneBMap ctr
        (addBackup today (freshBackup path cells config now0 ctr0)
          (baseBackups store path ctr0).backups)).1 today
            (pushUpdLast now upd (cloneBucket s L).1)) today
        = some (pushUpdLast now upd (cloneBucket s L).1) := by
      rw [bLookup_bInsert, if_pos rfl]
    have hlat := latestBackup_today_some hlook
    rw [pushUpdLast_getLast hg now upd] at hlat
    exact ⟨_, _, _, hup, hlat, rfl⟩

/-- C7 witness: on the concrete one-path store, `updateNb` for an untracked
path rejects, which is exactly the NotFound condition. -/
theorem c7_notfound_iff_untracked_witness :
    wfStore cexStore = true
    ∧ (isErr (updateNb cexStore "other" ⟨3⟩ 70 5 200) = true
        ↔ storeLookup cexStore "other" = none) :=
  ⟨by decide, (c7_notfound_iff_untracked cexStore "other" ⟨3⟩ 70 5 200 (by decide)).1⟩

theorem c10_pure_send_actions_frame :
    ∀ (s : NotebookState),
      (∀ cid comment, dispatch (UIAction.createComment cid comment) s
        = (s, [Evt.sent (Message.createComment s.globalVersion s.localVersion cid comment)]))
      ∧ (∀ cid commentId range content,
          dispatch (UIAction.updateComment cid commentId range content) s
            = (s, [Evt.sent
                (Message.updateComment s.globalVersion s.localVersion cid commentId range content)]))
      ∧ (∀ cid commentId, dispatch (UIAction.deleteComment cid commentId) s
        = (s, [Evt.sent (Message.deleteComment s.globalVersion s.localVersion cid commentId)]))
      ∧ (∀ cid range, dispatch (UIAction.setCurrentSelection cid range) s
        = (s, [Evt.sent (Message.currentSelection cid range)]))
      ∧ (∀ cid output, dispatch (UIAction.setCellOutput cid output) s
        = (s, [Evt.sent (Message.setCellOutput s.globalVersion s.localVersion cid output)]))
      ∧ (∀ version, dispatch (UIAction.requestNotebookVersion version) s
        = (s, [Evt.sent (Message.notebookVersion s.path version)]))
      ∧ dispatch UIAction.requestCancelTasks s = (s, [Evt.sent (Message.cancelTasks s.path)])
      ∧ dispatch UIAction.requestClearOutput s = (s, [Evt.sent Message.clearOutput]) :=
  fun _ =>
    ⟨fun _ _ => rfl, fun _ _ _ _ => rfl, fun _ _ => rfl, fun _ _ => rfl,
      fun _ _ => rfl, fun _ => rfl, rfl, rfl⟩
